import Mathlib

/-!
Shallow embedding of `src/salted_demo.py`: the salted-versioning core
(`get_salted_version`) and the salted target naming (`SaltedTask.salt_target`)
of the "salted graph" demo workflow.

Python machine-level facts are modelled explicitly: strings are Lean
`String`s, byte values are `Nat`s below 256, 32-bit words are `Nat`s reduced
modulo `2 ^ 32`, and `hashlib.sha256(...).hexdigest()` is implemented in full
(FIPS 180-4) so that concrete digests evaluate inside Lean.
-/

namespace Salted

/-! ## SHA-256 (`hashlib.sha256`), executable over `Nat` bytes -/

/-- Right rotation of a 32-bit word held as a `Nat` (assumed `< 2 ^ 32`). -/
def rotr (n x : Nat) : Nat := x / 2 ^ n + x % 2 ^ n * 2 ^ (32 - n)

/-- The eight registers of the SHA-256 compression state. -/
structure Regs where
  a : Nat
  b : Nat
  c : Nat
  d : Nat
  e : Nat
  f : Nat
  g : Nat
  h : Nat

/-- SHA-256 initial hash value (FIPS 180-4 §5.3.3), in decimal. -/
def initRegs : Regs :=
  ⟨1779033703, 3144134277, 1013904242, 2773480762,
   1359893119, 2600822924, 528734635, 1541459225⟩

/-- The 64 SHA-256 round constants (FIPS 180-4 §4.2.2), in decimal. -/
def roundK : List Nat :=
  [1116352408, 1899447441, 3049323471, 3921009573, 961987163, 1508970993,
   2453635748, 2870763221, 3624381080, 310598401, 607225278, 1426881987,
   1925078388, 2162078206, 2614888103, 3248222580, 3835390401, 4022224774,
   264347078, 604807628, 770255983, 1249150122, 1555081692, 1996064986,
   2554220882, 2821834349, 2952996808, 3210313671, 3336571891, 3584528711,
   113926993, 338241895, 666307205, 773529912, 1294757372, 1396182291,
   1695183700, 1986661051, 2177026350, 2456956037, 2730485921, 2820302411,
   3259730800, 3345764771, 3516065817, 3600352804, 4094571909, 275423344,
   430227734, 506948616, 659060556, 883997877, 958139571, 1322822218,
   1537002063, 1747873779, 1955562222, 2024104815, 2227730452, 2361852424,
   2428436474, 2756734187, 3204031479, 3329325298]

/-- One SHA-256 round: consume a `(k, w)` constant/schedule-word pair. -/
def round (r : Regs) (kw : Nat × Nat) : Regs :=
  let bigS1 := rotr 6 r.e ^^^ rotr 11 r.e ^^^ rotr 25 r.e
  let ch := (r.e &&& r.f) ^^^ ((r.e ^^^ 0xffffffff) &&& r.g)
  let t1 := (r.h + bigS1 + ch + kw.1 + kw.2) % 2 ^ 32
  let bigS0 := rotr 2 r.a ^^^ rotr 13 r.a ^^^ rotr 22 r.a
  let maj := (r.a &&& r.b) ^^^ (r.a &&& r.c) ^^^ (r.b &&& r.c)
  let t2 := (bigS0 + maj) % 2 ^ 32
  ⟨(t1 + t2) % 2 ^ 32, r.a, r.b, r.c, (r.d + t1) % 2 ^ 32, r.e, r.f, r.g⟩

/-- Extend a 16-word block by `fuel` further message-schedule words. -/
def extendW : Nat → List Nat → List Nat
  | 0, ws => ws
  | n + 1, ws =>
    let i := ws.length
    let s0 := rotr 7 (ws.getD (i - 15) 0) ^^^ rotr 18 (ws.getD (i - 15) 0) ^^^
      ws.getD (i - 15) 0 / 2 ^ 3
    let s1 := rotr 17 (ws.getD (i - 2) 0) ^^^ rotr 19 (ws.getD (i - 2) 0) ^^^
      ws.getD (i - 2) 0 / 2 ^ 10
    extendW n (ws ++ [(ws.getD (i - 16) 0 + s0 + ws.getD (i - 7) 0 + s1) % 2 ^ 32])

/-- Add two register files word-wise modulo `2 ^ 32`. -/
def addRegs (x y : Regs) : Regs :=
  ⟨(x.a + y.a) % 2 ^ 32, (x.b + y.b) % 2 ^ 32, (x.c + y.c) % 2 ^ 32,
   (x.d + y.d) % 2 ^ 32, (x.e + y.e) % 2 ^ 32, (x.f + y.f) % 2 ^ 32,
   (x.g + y.g) % 2 ^ 32, (x.h + y.h) % 2 ^ 32⟩

/-- Compress one 16-word message block into the running hash state. -/
def compress (r : Regs) (block : List Nat) : Regs :=
  addRegs r ((roundK.zip (extendW 48 block)).foldl round r)

/-- Big-endian byte decomposition of `n` into `k` bytes. -/
def bytesBE : Nat → Nat → List Nat
  | 0, _ => []
  | k + 1, n => bytesBE k (n / 256) ++ [n % 256]

/-- SHA-256 padding: append `0x80`, zero bytes to 56 mod 64, then the
bit length as 8 big-endian bytes. -/
def padBytes (m : List Nat) : List Nat :=
  m ++ [0x80] ++ List.replicate ((119 - m.length % 64) % 64) 0 ++
    bytesBE 8 (8 * m.length)

/-- Group bytes into big-endian 32-bit words. -/
def bytesToWords : List Nat → List Nat
  | b0 :: b1 :: b2 :: b3 :: rest =>
    (((b0 * 256 + b1) * 256 + b2) * 256 + b3) :: bytesToWords rest
  | _ => []

/-- Split a word list into 16-word blocks (`fuel`-driven so it reduces). -/
def chunk16F : Nat → List Nat → List (List Nat)
  | 0, _ => []
  | _, [] => []
  | fuel + 1, w :: ws => ((w :: ws).take 16) :: chunk16F fuel ((w :: ws).drop 16)

/-- Split a word list into its 16-word blocks. -/
def chunk16 (l : List Nat) : List (List Nat) := chunk16F l.length l

/-- UTF-8 encoding of one character (Python `str.encode`). -/
def utf8Char (c : Char) : List Nat :=
  let n := c.toNat
  if n < 0x80 then [n]
  else if n < 0x800 then [0xc0 + n / 64, 0x80 + n % 64]
  else if n < 0x10000 then
    [0xe0 + n / 4096, 0x80 + n / 64 % 64, 0x80 + n % 64]
  else
    [0xf0 + n / 262144, 0x80 + n / 4096 % 64, 0x80 + n / 64 % 64, 0x80 + n % 64]

/-- UTF-8 byte sequence of a string (Python `msg.encode()`). -/
def utf8Bytes (s : String) : List Nat := s.data.flatMap utf8Char

/-- The lowercase hexadecimal alphabet used by `hexdigest`. -/
def hexAlphabet : List Char := "0123456789abcdef".data

/-- The lowercase hex character for `n % 16`. -/
def hexChar (n : Nat) : Char := hexAlphabet.getD (n % 16) '0'

/-- The 8 lowercase hex characters of a 32-bit word, most significant first. -/
def toHex8Data (n : Nat) : List Char :=
  [hexChar (n / 16 ^ 7), hexChar (n / 16 ^ 6), hexChar (n / 16 ^ 5),
   hexChar (n / 16 ^ 4), hexChar (n / 16 ^ 3), hexChar (n / 16 ^ 2),
   hexChar (n / 16), hexChar n]

/-- Render a 32-bit word as 8 lowercase hex characters. -/
def toHex8 (n : Nat) : String := ⟨toHex8Data n⟩

/-- `hashlib.sha256(s.encode()).hexdigest()`: lowercase hex SHA-256 digest
of the UTF-8 encoding of `s`. -/
def sha256hex (s : String) : String :=
  let r := (chunk16 (bytesToWords (padBytes (utf8Bytes s)))).foldl compress initRegs
  toHex8 r.a ++ toHex8 r.b ++ toHex8 r.c ++ toHex8 r.d ++
    toHex8 r.e ++ toHex8 r.f ++ toHex8 r.g ++ toHex8 r.h

/-! ## Task nodes and parameters -/

/-- A Python value attached as a luigi parameter, identified by what `repr`
prints for it. `pyStr` and `pyInt` mirror `repr` on `str` (quote-free
strings) and `int`; `pyRaw s` models any other Python object whose `repr`
text is `s` (e.g. a `datetime.date`). -/
inductive PyValue where
  | pyStr : String → PyValue
  | pyInt : Int → PyValue
  | pyRaw : String → PyValue
deriving DecidableEq

/-- Python `repr` of a parameter value, as used in
`'{}={}'.format(param_name, repr(task.param_kwargs[param_name]))`. -/
def pyRepr : PyValue → String
  | .pyStr s => "\x27" ++ s ++ "\x27"
  | .pyInt n => toString n
  | .pyRaw s => s

/-- One luigi parameter of a task: its name (from `task.get_params()`), its
bound value (from `task.param_kwargs[param_name]`), and its
`param.significant` flag. -/
structure Param where
  name : String
  value : PyValue
  significant : Bool
deriving DecidableEq

/-- A task node: `flatten(task.requires())` as a list of upstream nodes,
`inspect.getsource(task.__class__)` as the logic source text, and the
task's parameters. The inductive structure makes the requirement graph
finite and acyclic, as the spec demands of inputs. -/
inductive TaskNode where
  | mk : List TaskNode → String → List Param → TaskNode

/-- The flattened upstream requirements of a node. -/
def TaskNode.requires : TaskNode → List TaskNode
  | .mk reqs _ _ => reqs

/-- The logic source text of a node. -/
def TaskNode.source : TaskNode → String
  | .mk _ src _ => src

/-- The parameters of a node. -/
def TaskNode.params : TaskNode → List Param
  | .mk _ _ ps => ps

/-- Python `','.join` on a list of strings. -/
def joinComma : List String → String
  | [] => ""
  | [s] => s
  | s :: rest => s ++ "," ++ joinComma rest

/-- Stable insertion of a parameter into a name-sorted list, as performed by
Python `sorted` on the `(param_name, param)` pairs of `task.get_params()`. -/
def insertParam (p : Param) : List Param → List Param
  | [] => [p]
  | q :: qs => if p.name ≤ q.name then p :: q :: qs else q :: insertParam p qs

/-- Python `sorted(task.get_params())`: parameters sorted by name ascending. -/
def sortParams : List Param → List Param
  | [] => []
  | p :: ps => insertParam p (sortParams ps)

/-- The `name=value` pair contributed by one significant parameter. -/
def pairStr (p : Param) : String := p.name ++ "=" ++ pyRepr p.value

/-- The list the Python code joins with `','`: the task class source followed
by `name=repr(value)` for each significant parameter in name-sorted order. -/
def selfParts (src : String) (ps : List Param) : List String :=
  src :: ((sortParams ps).filter (·.significant)).map pairStr

mutual

/-- The message hashed by `get_salted_version`, with the hash used for
upstream requirements abstracted as `H`: the concatenation of `H` applied to
each requirement's message, followed by `','.join` of the source text and the
sorted significant `name=value` pairs. -/
def messageH (H : String → String) : TaskNode → String
  | .mk reqs src ps => lineageH H reqs ++ joinComma (selfParts src ps)

/-- The lineage part of the message: the digests of the requirements,
concatenated in order. -/
def lineageH (H : String → String) : List TaskNode → String
  | [] => ""
  | t :: ts => H (messageH H t) ++ lineageH H ts

end

/-- `get_salted_version` with the hash function abstracted: digest the
combined lineage-plus-self message with `H`. -/
def getSaltedVersionH (H : String → String) (t : TaskNode) : String :=
  H (messageH H t)

/-- `get_salted_version(task)` from `salted_demo.py`: the lowercase hex
SHA-256 digest of the UTF-8 encoded lineage-plus-self message. -/
def get_salted_version (t : TaskNode) : String := getSaltedVersionH sha256hex t

/-- Replace the value bound to parameter name `n` by `v`, leaving the
parameter's name and significance flag (and every other parameter) alone:
"changing only the value of a parameter". -/
def updVal (n : String) (v : PyValue) (p : Param) : Param :=
  if p.name = n then ⟨p.name, v, p.significant⟩ else p

/-! ## `SaltedTask` and `salt_target` -/

/-- One piece of a parsed `file_pattern` format string: literal text, or a
`{name}` replacement field (`field "salt"` for `{salt}`, `field "self.x"`
for `{self.x}`). -/
inductive TItem where
  | lit : String → TItem
  | field : String → TItem
deriving DecidableEq

/-- The fatal error raised when a `file_pattern` placeholder does not
resolve: models the `KeyError`/`AttributeError` that Python's `str.format`
raises out of `salt_target` for an unknown replacement field. -/
structure TemplateResolutionError where
  missing : String
deriving DecidableEq

/-- A `SaltedTask` instance: the underlying task node, the three
`BoolParameter`/`IntParameter` configuration parameters declared on the
class, and the attribute lookup backing `{self.x}` replacement fields
(`none` models a name `str.format` cannot resolve). -/
structure SaltedTaskNode where
  node : TaskNode
  salt_workflow : Bool
  salt_parameters : Bool
  salt_length : Nat
  attrs : String → Option String

/-- Resolve one replacement field of `file_pattern.format(salt=..., self=self)`:
`{salt}` gets the truncated digest, everything else resolves against the
task instance. -/
def resolveField (salt : String) (attrs : String → Option String)
    (n : String) : Option String :=
  if n = "salt" then some salt else attrs n

/-- Python `str.format` over the parsed pattern: substitute every
replacement field left to right, failing on the first unresolvable one. -/
def formatTemplate (salt : String) (attrs : String → Option String) :
    List TItem → Except TemplateResolutionError String
  | [] => .ok ""
  | .lit s :: rest => (formatTemplate salt attrs rest).map (s ++ ·)
  | .field n :: rest =>
    match resolveField salt attrs n with
    | none => .error ⟨n⟩
    | some v => (formatTemplate salt attrs rest).map (v ++ ·)

/-- `SaltedTask.salt_target`: format `file_pattern` with
`salt=get_salted_version(self)[:self.salt_length]` and `self=self`, and
construct the target at the resulting path (the target is identified with
its path; extra kwargs pass through to the target constructor unchanged).
Note the method never consults `salt_workflow` or `salt_parameters`. -/
def salt_target (st : SaltedTaskNode) (file_pattern : List TItem) :
    Except TemplateResolutionError String :=
  formatTemplate ((get_salted_version st.node).take st.salt_length)
    st.attrs file_pattern

/-! ## Sanity pins: the SHA-256 implementation against FIPS 180-4 vectors -/

/-- The SHA-256 digest of the empty message, as pinned by FIPS 180-4. -/
theorem sha256hex_empty_vector :
    sha256hex "" =
      "e3b0c44298fc1c149afbf4c8996fb92427ae41e4649b934ca495991b7852b855" := by
  decide

set_option maxRecDepth 8000 in
/-- The SHA-256 digest of `"abc"`, as pinned by FIPS 180-4. -/
theorem sha256hex_abc_vector :
    sha256hex "abc" =
      "ba7816bf8f01cfea414140de5dae2223b00361a396177a9cb410ff61f20015ad" := by
  decide

/-! ## String helper lemmas -/

/-- Left cancellation for string concatenation. -/
theorem str_cancel_left {a b c : String} (hC : a ++ b = a ++ c) : b = c := by
  have hd := congrArg String.data hC
  simp only [String.data_append] at hd
  exact String.ext (List.append_cancel_left hd)

/-- Right cancellation for string concatenation. -/
theorem str_cancel_right {a b c : String} (hC : a ++ c = b ++ c) : a = b := by
  have hd := congrArg String.data hC
  simp only [String.data_append] at hd
  exact String.ext (List.append_cancel_right hd)

/-! ## `joinComma` helper lemmas -/

/-- Unfolding of `','.join` at a cons with a nonempty tail. -/
theorem joinComma_cons (s : String) (l : List String) (hl : l ≠ []) :
    joinComma (s :: l) = s ++ "," ++ joinComma l := by
  cases l with
  | nil => exact absurd rfl hl
  | cons b bs => rfl

/-- `','.join` separates its pieces: two joins over lists that agree except
at one position agree only if the differing pieces agree. -/
theorem joinComma_inj_at (A : List String) (x y : String) (B : List String)
    (hJ : joinComma (A ++ x :: B) = joinComma (A ++ y :: B)) : x = y := by
  induction A with
  | nil =>
    cases B with
    | nil => simpa [joinComma] using hJ
    | cons b bs =>
      rw [List.nil_append, List.nil_append,
        joinComma_cons x (b :: bs) (by simp),
        joinComma_cons y (b :: bs) (by simp)] at hJ
      exact str_cancel_right (str_cancel_right hJ)
  | cons a as ih =>
    rw [List.cons_append, List.cons_append,
      joinComma_cons a (as ++ x :: B) (by simp),
      joinComma_cons a (as ++ y :: B) (by simp)] at hJ
    exact ih (str_cancel_left hJ)

/-! ## Sorting helper lemmas -/

/-- `insertParam` inserts: the result is a permutation of pushing in front. -/
theorem insertParam_perm (p : Param) (l : List Param) :
    List.Perm (insertParam p l) (p :: l) := by
  induction l with
  | nil => exact List.Perm.refl _
  | cons q qs ih =>
    by_cases hle : p.name ≤ q.name
    · simp only [insertParam, if_pos hle]
      exact List.Perm.refl _
    · simp only [insertParam, if_neg hle]
      exact (ih.cons q).trans (List.Perm.swap p q qs)

/-- `sortParams` permutes its input. -/
theorem sortParams_perm (l : List Param) : List.Perm (sortParams l) l := by
  induction l with
  | nil => exact List.Perm.refl _
  | cons p ps ih => exact (insertParam_perm p (sortParams ps)).trans (ih.cons p)

/-- Membership is preserved by `sortParams`. -/
theorem mem_sortParams {q : Param} {l : List Param} :
    q ∈ sortParams l ↔ q ∈ l := (sortParams_perm l).mem_iff

/-- Inserting into a name-sorted list keeps it name-sorted. -/
theorem pairwise_insertParam (p : Param) (l : List Param)
    (hs : List.Pairwise (fun a b : Param => a.name ≤ b.name) l) :
    List.Pairwise (fun a b : Param => a.name ≤ b.name) (insertParam p l) := by
  induction l with
  | nil => simp [insertParam]
  | cons q qs ih =>
    rcases List.pairwise_cons.mp hs with ⟨hq, hqs⟩
    by_cases hle : p.name ≤ q.name
    · simp only [insertParam, if_pos hle]
      refine List.pairwise_cons.mpr ⟨?_, hs⟩
      intro r hr
      rcases List.mem_cons.mp hr with rfl | hr
      · exact hle
      · exact le_trans hle (hq r hr)
    · simp only [insertParam, if_neg hle]
      refine List.pairwise_cons.mpr ⟨?_, ih hqs⟩
      intro r hr
      rcases List.mem_cons.mp ((insertParam_perm p qs).mem_iff.mp hr) with h | h
      · subst h
        exact le_of_not_le hle
      · exact hq r h

/-- `sortParams` sorts by parameter name, ascending. -/
theorem pairwise_sortParams (l : List Param) :
    List.Pairwise (fun a b : Param => a.name ≤ b.name) (sortParams l) := by
  induction l with
  | nil => simp [sortParams]
  | cons p ps ih => exact pairwise_insertParam p (sortParams ps) ih

/-- A name-preserving transformation commutes with `insertParam`: the
comparisons only look at names. -/
theorem insertParam_map (f : Param → Param) (hf : ∀ p, (f p).name = p.name)
    (p : Param) (l : List Param) :
    insertParam (f p) (l.map f) = (insertParam p l).map f := by
  induction l with
  | nil => rfl
  | cons q qs ih =>
    by_cases hle : p.name ≤ q.name
    · have h1 : (f p).name ≤ (f q).name := by rw [hf, hf]; exact hle
      simp only [List.map_cons, insertParam, if_pos hle, if_pos h1]
    · have h1 : ¬(f p).name ≤ (f q).name := by rw [hf, hf]; exact hle
      simp only [List.map_cons, insertParam, if_neg hle, if_neg h1, ih]

/-- A name-preserving transformation commutes with `sortParams`. -/
theorem sortParams_map (f : Param → Param) (hf : ∀ p, (f p).name = p.name)
    (l : List Param) : sortParams (l.map f) = (sortParams l).map f := by
  induction l with
  | nil => rfl
  | cons q qs ih => simp only [List.map_cons, sortParams, ih, insertParam_map f hf]

/-- `updVal` never changes a parameter's name. -/
theorem updVal_name (n : String) (v : PyValue) (p : Param) :
    (updVal n v p).name = p.name := by
  unfold updVal
  split <;> rfl

/-- `updVal` never changes a parameter's significance flag. -/
theorem updVal_significant (n : String) (v : PyValue) (p : Param) :
    (updVal n v p).significant = p.significant := by
  unfold updVal
  split <;> rfl

/-- `updVal` leaves parameters with other names alone. -/
theorem updVal_of_ne {n : String} (v : PyValue) {p : Param} (hp : p.name ≠ n) :
    updVal n v p = p := by
  unfold updVal
  exact if_neg hp

/-- The significant, name-sorted parameter list of a node whose parameter
values were rewritten by `updVal` is the `updVal`-image of the original one. -/
theorem sigSorted_map_updVal (n : String) (v : PyValue) (ps : List Param) :
    ((sortParams (ps.map (updVal n v))).filter (·.significant)) =
      ((sortParams ps).filter (·.significant)).map (updVal n v) := by
  rw [sortParams_map (updVal n v) (updVal_name n v), List.filter_map]
  refine congrArg _ (List.filter_congr ?_)
  intro p _
  simp [Function.comp, updVal_significant]

/-- Both messages in a value-update comparison share their lineage part and
differ only in the joined self part; this lemma reduces message equality to
equality of the joined parameter pair lists. -/
theorem messageH_mk (H : String → String) (reqs : List TaskNode) (src : String)
    (ps : List Param) :
    messageH H (.mk reqs src ps) =
      lineageH H reqs ++ joinComma (selfParts src ps) := by
  rfl

/-- Changing only the values of insignificant parameters leaves the hashed
message unchanged. -/
theorem messageH_updVal_insig (H : String → String) (reqs : List TaskNode)
    (src : String) (ps : List Param) (n : String) (v : PyValue)
    (hins : ∀ p ∈ ps, p.name = n → p.significant = false) :
    messageH H (.mk reqs src (ps.map (updVal n v))) =
      messageH H (.mk reqs src ps) := by
  rw [messageH_mk, messageH_mk]
  refine congrArg _ (congrArg _ ?_)
  unfold selfParts
  rw [sigSorted_map_updVal, List.map_map]
  refine congrArg _ (List.map_congr_left ?_)
  intro p hp
  have hmem : p ∈ ps := mem_sortParams.mp (List.mem_of_mem_filter hp)
  have hsig : p.significant = true := by
    simpa using List.of_mem_filter hp
  have hname : p.name ≠ n := by
    intro hn
    rw [hins p hmem hn] at hsig
    exact Bool.false_ne_true hsig
  simp [Function.comp, updVal_of_ne v hname]

/-- Changing the value of a significant parameter (to one with a different
`repr`) changes the hashed message. -/
theorem messageH_updVal_sig_ne (H : String → String) (reqs : List TaskNode)
    (src : String) (ps : List Param) (n : String) (v1 v2 : PyValue)
    (hnd : (ps.map Param.name).Nodup)
    (hmem : (⟨n, v1, true⟩ : Param) ∈ ps)
    (hne : pyRepr v1 ≠ pyRepr v2) :
    messageH H (.mk reqs src (ps.map (updVal n v2))) ≠
      messageH H (.mk reqs src ps) := by
  intro heq
  rw [messageH_mk, messageH_mk] at heq
  have hjoin := str_cancel_left heq
  unfold selfParts at hjoin
  rw [sigSorted_map_updVal] at hjoin
  -- decompose the significant sorted list around the parameter named `n`
  have hmemL : (⟨n, v1, true⟩ : Param) ∈
      (sortParams ps).filter (·.significant) := by
    refine List.mem_filter.mpr ⟨mem_sortParams.mpr hmem, rfl⟩
  rcases List.append_of_mem hmemL with ⟨A, B, hAB⟩
  -- names in the sorted-filtered list are still nodup
  have hndL : (((sortParams ps).filter (·.significant)).map Param.name).Nodup := by
    have h1 : ((sortParams ps).map Param.name).Nodup :=
      ((sortParams_perm ps).map Param.name).nodup_iff.mpr hnd
    exact h1.sublist (((sortParams ps).filter_sublist).map Param.name)
  rw [hAB] at hndL
  have hnA : n ∉ A.map Param.name ∧ n ∉ B.map Param.name := by
    rw [List.map_append, List.map_cons, List.nodup_middle] at hndL
    rcases List.nodup_cons.mp hndL with ⟨hm, _⟩
    simp only [List.mem_append] at hm
    exact ⟨fun h1 => hm (Or.inl h1), fun h2 => hm (Or.inr h2)⟩
  -- the update acts as identity on A and B, and rewrites the middle value
  have hApre : A.map (updVal n v2) = A := by
    refine List.map_congr_left ?_ |>.trans (List.map_id A)
    intro p hp
    refine updVal_of_ne v2 (fun hpn => hnA.1 ?_)
    exact hpn ▸ List.mem_map_of_mem Param.name hp
  have hBpre : B.map (updVal n v2) = B := by
    refine List.map_congr_left ?_ |>.trans (List.map_id B)
    intro p hp
    refine updVal_of_ne v2 (fun hpn => hnA.2 ?_)
    exact hpn ▸ List.mem_map_of_mem Param.name hp
  have hmid : updVal n v2 (⟨n, v1, true⟩ : Param) = ⟨n, v2, true⟩ := by
    simp [updVal]
  rw [hAB, List.map_append, List.map_cons, hApre, hBpre, hmid,
    List.map_append, List.map_cons, List.map_append, List.map_cons] at hjoin
  have hcons1 :
      src :: (A.map pairStr ++ pairStr ⟨n, v2, true⟩ :: B.map pairStr) =
        (src :: A.map pairStr) ++ pairStr ⟨n, v2, true⟩ :: B.map pairStr := rfl
  have hcons2 :
      src :: (A.map pairStr ++ pairStr ⟨n, v1, true⟩ :: B.map pairStr) =
        (src :: A.map pairStr) ++ pairStr ⟨n, v1, true⟩ :: B.map pairStr := rfl
  rw [hcons1, hcons2] at hjoin
  have hpair := joinComma_inj_at _ _ _ _ hjoin
  unfold pairStr at hpair
  exact hne (str_cancel_left hpair).symm

/-! ## Hex digest shape lemmas -/

/-- Every character `hexChar` produces is in the lowercase hex alphabet. -/
theorem hexChar_mem (n : Nat) : hexChar n ∈ hexAlphabet := by
  have hlt : n % 16 < hexAlphabet.length := Nat.mod_lt n (by decide)
  unfold hexChar
  rw [List.getD_eq_getElem hexAlphabet _ hlt]
  exact List.getElem_mem hlt

/-- `toHex8` renders exactly 8 characters. -/
theorem toHex8_length (n : Nat) : (toHex8 n).length = 8 := rfl

/-- All characters of `toHex8` are lowercase hex. -/
theorem toHex8_chars (n : Nat) : ∀ c ∈ (toHex8 n).data, c ∈ hexAlphabet := by
  intro c hc
  have hd : (toHex8 n).data = toHex8Data n := rfl
  rw [hd] at hc
  simp only [toHex8Data, List.mem_cons, List.not_mem_nil, or_false] at hc
  rcases hc with rfl | rfl | rfl | rfl | rfl | rfl | rfl | rfl <;>
    exact hexChar_mem _

/-- Every SHA-256 hex digest has exactly 64 characters, all of them in the
lowercase hexadecimal alphabet. -/
theorem sha256hex_shape (s : String) :
    (sha256hex s).length = 64 ∧ ∀ c ∈ (sha256hex s).data, c ∈ hexAlphabet := by
  unfold sha256hex
  constructor
  · simp [String.length_append, toHex8_length]
  · intro c hc
    simp only [String.data_append, List.mem_append] at hc
    rcases hc with ((((((h | h) | h) | h) | h) | h) | h) | h <;>
      exact toHex8_chars _ c h

/-! ## Template formatting lemmas -/

/-- Formatting a literal/`{salt}`/literal pattern substitutes the salt
between the two literal pieces. -/
theorem formatTemplate_around_salt (salt : String)
    (attrs : String → Option String) (pre post : String) :
    formatTemplate salt attrs [.lit pre, .field "salt", .lit post] =
      .ok (pre ++ salt ++ post) := by
  simp [formatTemplate, resolveField, Except.map, String.append_empty,
    String.append_assoc]

/-- `salt_target` on a literal/`{salt}`/literal pattern: the path is the
pattern with the first `salt_length` characters of the digest substituted. -/
theorem salt_target_around_salt (st : SaltedTaskNode) (pre post : String) :
    salt_target st [.lit pre, .field "salt", .lit post] =
      .ok (pre ++ (get_salted_version st.node).take st.salt_length ++ post) :=
  formatTemplate_around_salt _ st.attrs pre post

/-- A pattern containing an unresolvable replacement field formats to an
error, whatever else it contains. -/
theorem formatTemplate_error (salt : String) (attrs : String → Option String)
    (tmpl : List TItem) (n : String) (hmem : TItem.field n ∈ tmpl)
    (hn : resolveField salt attrs n = none) :
    ∃ e, formatTemplate salt attrs tmpl = .error e := by
  induction tmpl with
  | nil => simp at hmem
  | cons item rest ih =>
    cases item with
    | lit s =>
      have hrest : TItem.field n ∈ rest := by
        rcases List.mem_cons.mp hmem with h | h
        · exact absurd h (by simp)
        · exact h
      rcases ih hrest with ⟨e, he⟩
      exact ⟨e, by simp [formatTemplate, he, Except.map]⟩
    | field m =>
      rcases hr : resolveField salt attrs m with _ | v
      · exact ⟨⟨m⟩, by simp [formatTemplate, hr]⟩
      · have hmn : m ≠ n := by
          intro h
          rw [h, hn] at hr
          exact Option.noConfusion hr
        have hrest : TItem.field n ∈ rest := by
          rcases List.mem_cons.mp hmem with h | h
          · exact absurd (TItem.field.inj h.symm) hmn
          · exact h
        rcases ih hrest with ⟨e, he⟩
        exact ⟨e, by simp [formatTemplate, hr, he, Except.map]⟩

/-- The message of a single-requirement node with logic text `"P"` and no
parameters: the requirement's digest immediately followed by `"P"`. -/
theorem messageH_single_req (H : String → String) (leaf : TaskNode) :
    messageH H (.mk [leaf] "P" []) = H (messageH H leaf) ++ "P" := by
  rw [messageH_mk]
  simp only [lineageH, selfParts, sortParams, List.filter_nil, List.map_nil,
    joinComma, String.append_empty]

/-! ## Claims -/

set_option maxRecDepth 20000 in
/-- Claim C1, counterexample: for the leaf node with logic text `"L"` and the
single significant parameter `date` rendering to `2018-03-07`,
`get_salted_version` is NOT the SHA-256 digest of the logic text immediately
followed by the `name=value` pair — the code joins the two with a comma. -/
theorem c1_leaf_digest_counterexample :
    get_salted_version (.mk [] "L" [⟨"date", .pyRaw "2018-03-07", true⟩]) ≠
      sha256hex ("L" ++ "date=2018-03-07") := by
  decide

/-- Claim C1, amended: for a task node with no requirements, logic source
text `"L"`, and exactly one significant parameter named `date` whose rendered
value is `2018-03-07`, `get_salted_version` returns the lowercase hex SHA-256
digest of the message `"L" + "," + "date=2018-03-07"` — the logic text and the
`name=value` pair joined by `','.join`'s comma separator. -/
theorem c1_leaf_digest (v : PyValue) (hv : pyRepr v = "2018-03-07") :
    get_salted_version (.mk [] "L" [⟨"date", v, true⟩]) =
      sha256hex "L,date=2018-03-07" := by
  have hmsg : messageH sha256hex (.mk [] "L" [⟨"date", v, true⟩]) =
      "L,date=2018-03-07" := by
    rw [messageH_mk]
    simp only [lineageH, selfParts, sortParams, insertParam, pairStr, hv,
      joinComma, List.filter_cons, List.filter_nil, List.map_cons, List.map_nil]
    decide
  calc get_salted_version (.mk [] "L" [⟨"date", v, true⟩])
      = sha256hex (messageH sha256hex (.mk [] "L" [⟨"date", v, true⟩])) := rfl
    _ = sha256hex "L,date=2018-03-07" := by rw [hmsg]

/-- Witness for `c1_leaf_digest` at the concrete rendered value. -/
theorem c1_leaf_digest_witness :
    pyRepr (.pyRaw "2018-03-07") = "2018-03-07" ∧
    get_salted_version (.mk [] "L" [⟨"date", .pyRaw "2018-03-07", true⟩]) =
      sha256hex "L,date=2018-03-07" :=
  ⟨rfl, c1_leaf_digest (.pyRaw "2018-03-07") rfl⟩

/-- Claim C2: a node `Parent` with one requirement `Leaf`, logic text `"P"`
and no parameters digests to `sha256(digest(Leaf) + "P")`; and any change to
`Leaf` that changes `digest(Leaf)` changes the parent's hashed message, and
hence (for an injective digest — SHA-256 collisions treated as negligible,
as the spec does) changes `digest(Parent)`. -/
theorem c2_parent_digest :
    (∀ leaf : TaskNode,
      get_salted_version (.mk [leaf] "P" []) =
        sha256hex (get_salted_version leaf ++ "P")) ∧
    (∀ leaf leaf' : TaskNode,
      get_salted_version leaf ≠ get_salted_version leaf' →
      messageH sha256hex (.mk [leaf] "P" []) ≠
        messageH sha256hex (.mk [leaf'] "P" [])) ∧
    (∀ H : String → String, Function.Injective H →
      ∀ leaf leaf' : TaskNode,
      getSaltedVersionH H leaf ≠ getSaltedVersionH H leaf' →
      getSaltedVersionH H (.mk [leaf] "P" []) ≠
        getSaltedVersionH H (.mk [leaf'] "P" [])) := by
  refine ⟨fun leaf => ?_, fun leaf leaf' hne heq => ?_, ?_⟩
  · show sha256hex (messageH sha256hex (.mk [leaf] "P" [])) = _
    rw [messageH_single_req]
    rfl
  · rw [messageH_single_req, messageH_single_req] at heq
    exact hne (str_cancel_right heq)
  · intro H hinj leaf leaf' hne heq
    have hmsg := hinj heq
    rw [messageH_single_req, messageH_single_req] at hmsg
    exact hne (str_cancel_right hmsg)

set_option maxRecDepth 20000 in
/-- Witness for `c2_parent_digest` at concrete leaves with logic texts `"A"`
and `"B"`, whose digests differ. -/
theorem c2_parent_digest_witness :
    (get_salted_version (.mk [.mk [] "A" []] "P" []) =
      sha256hex (get_salted_version (.mk [] "A" []) ++ "P")) ∧
    (get_salted_version (.mk [] "A" []) ≠ get_salted_version (.mk [] "B" []) ∧
      messageH sha256hex (.mk [.mk [] "A" []] "P" []) ≠
        messageH sha256hex (.mk [.mk [] "B" []] "P" [])) ∧
    (getSaltedVersionH id (.mk [] "A" []) ≠ getSaltedVersionH id (.mk [] "B" []) ∧
      getSaltedVersionH id (.mk [.mk [] "A" []] "P" []) ≠
        getSaltedVersionH id (.mk [.mk [] "B" []] "P" [])) :=
  ⟨c2_parent_digest.1 (.mk [] "A" []),
   ⟨by decide, c2_parent_digest.2.1 (.mk [] "A" []) (.mk [] "B" []) (by decide)⟩,
   ⟨by decide,
    c2_parent_digest.2.2 id Function.injective_id (.mk [] "A" []) (.mk [] "B" [])
      (by decide)⟩⟩

/-- Claim C10: a node with no requirements and no significant parameters
digests to the SHA-256 hex digest of its logic source text alone, with no
separator or other characters appended. -/
theorem c10_bare_node_digest (src : String) (ps : List Param)
    (hps : ps.filter (·.significant) = []) :
    get_salted_version (.mk [] src ps) = sha256hex src := by
  have hfil : (sortParams ps).filter (·.significant) = [] := by
    rw [List.filter_eq_nil_iff]
    intro p hp
    exact (List.filter_eq_nil_iff.mp hps) p (mem_sortParams.mp hp)
  show sha256hex (messageH sha256hex (.mk [] src ps)) = _
  rw [messageH_mk]
  unfold selfParts
  rw [hfil]
  simp only [List.map_nil, lineageH, joinComma, String.empty_append]

/-- Witness for `c10_bare_node_digest`: a node with one insignificant
parameter and logic text `"W"`. -/
theorem c10_bare_node_digest_witness :
    ([(⟨"k", .pyInt 0, false⟩ : Param)].filter (·.significant) = []) ∧
    get_salted_version (.mk [] "W" [⟨"k", .pyInt 0, false⟩]) = sha256hex "W" :=
  ⟨by decide, c10_bare_node_digest "W" [⟨"k", .pyInt 0, false⟩] (by decide)⟩

/-- Claim C3: changing only the value bound to an insignificant parameter
name leaves `get_salted_version` unchanged; changing only the value bound to
a significant parameter name (to one with a different rendering — the spec
requires renderings to distinguish values) changes the digest, for any
injective digest function (SHA-256 collisions treated as negligible, as the
spec does). -/
theorem c3_parameter_significance :
    (∀ (reqs : List TaskNode) (src : String) (ps : List Param) (n : String)
      (v : PyValue),
      (∀ p ∈ ps, p.name = n → p.significant = false) →
      get_salted_version (.mk reqs src (ps.map (updVal n v))) =
        get_salted_version (.mk reqs src ps)) ∧
    (∀ H : String → String, Function.Injective H →
      ∀ (reqs : List TaskNode) (src : String) (ps : List Param) (n : String)
      (v1 v2 : PyValue),
      (ps.map Param.name).Nodup →
      (⟨n, v1, true⟩ : Param) ∈ ps →
      pyRepr v1 ≠ pyRepr v2 →
      getSaltedVersionH H (.mk reqs src (ps.map (updVal n v2))) ≠
        getSaltedVersionH H (.mk reqs src ps)) := by
  constructor
  · intro reqs src ps n v hins
    exact congrArg sha256hex (messageH_updVal_insig sha256hex reqs src ps n v hins)
  · intro H hinj reqs src ps n v1 v2 hnd hmem hne heq
    exact messageH_updVal_sig_ne H reqs src ps n v1 v2 hnd hmem hne (hinj heq)

/-- Witness for `c3_parameter_significance`: an insignificant value change
on `x` leaves the digest alone; a significant value change on `p` (string
`"1"` to string `"2"`) changes it, under the injective digest `id`. -/
theorem c3_parameter_significance_witness :
    ((∀ p ∈ [(⟨"x", .pyInt 1, false⟩ : Param)], p.name = "x" →
        p.significant = false) ∧
      get_salted_version
          (.mk [] "S" ([⟨"x", .pyInt 1, false⟩].map (updVal "x" (.pyInt 2)))) =
        get_salted_version (.mk [] "S" [⟨"x", .pyInt 1, false⟩])) ∧
    (([(⟨"p", .pyStr "1", true⟩ : Param)].map Param.name).Nodup ∧
      (⟨"p", .pyStr "1", true⟩ : Param) ∈ [(⟨"p", .pyStr "1", true⟩ : Param)] ∧
      pyRepr (.pyStr "1") ≠ pyRepr (.pyStr "2") ∧
      getSaltedVersionH id
          (.mk [] "S" ([⟨"p", .pyStr "1", true⟩].map (updVal "p" (.pyStr "2")))) ≠
        getSaltedVersionH id (.mk [] "S" [⟨"p", .pyStr "1", true⟩])) :=
  ⟨⟨by decide,
    c3_parameter_significance.1 [] "S" [⟨"x", .pyInt 1, false⟩] "x" (.pyInt 2)
      (by decide)⟩,
   ⟨by decide, by decide, by decide,
    c3_parameter_significance.2 id Function.injective_id [] "S"
      [⟨"p", .pyStr "1", true⟩] "p" (.pyStr "1") (.pyStr "2")
      (by decide) (by decide) (by decide)⟩⟩

/-- Claim C4: `get_salted_version` is a pure function of the node's
requirements, logic source text and parameters — two computations over a
node with identical such fields return identical strings (the embedding is
side-effect free by construction: the digest is `String`-valued, with no
I/O). -/
theorem c4_determinism (t₁ t₂ : TaskNode)
    (hr : t₁.requires = t₂.requires) (hs : t₁.source = t₂.source)
    (hp : t₁.params = t₂.params) :
    get_salted_version t₁ = get_salted_version t₂ := by
  cases t₁ with
  | mk r1 s1 p1 =>
    cases t₂ with
    | mk r2 s2 p2 =>
      simp only [TaskNode.requires, TaskNode.source, TaskNode.params] at hr hs hp
      rw [hr, hs, hp]

/-- Witness for `c4_determinism` at a concrete node. -/
theorem c4_determinism_witness :
    get_salted_version (.mk [] "A" [⟨"d", .pyInt 3, true⟩]) =
      get_salted_version (.mk [] "A" [⟨"d", .pyInt 3, true⟩]) :=
  c4_determinism _ _ rfl rfl rfl

/-- Claim C5: `salt_target` substitutes exactly the first `salt_length`
characters of `get_salted_version` for the `{salt}` placeholder: a pattern
`pre{salt}post` resolves to `pre ++ digest[:salt_length] ++ post` — in
particular `out-{salt}.csv` with `salt_length = 6` gives
`out-<first 6 chars>.csv`, and with `salt_length = 8` the salt substring is
the first 8 characters of the digest. -/
theorem c5_salt_substitution (st : SaltedTaskNode) (pre post : String) :
    salt_target st [.lit pre, .field "salt", .lit post] =
      .ok (pre ++ (get_salted_version st.node).take st.salt_length ++ post) :=
  salt_target_around_salt st pre post

/-- Claim C6 (code bug): even with `salt_workflow` disabled, `salt_target`
still substitutes the salted digest into the template — the flag is declared
on `SaltedTask` but never consulted, so no unsalted fallback exists. -/
theorem c6_salt_workflow_ignored (nd : TaskNode) (sp : Bool) (len : Nat)
    (attrs : String → Option String) :
    salt_target ⟨nd, false, sp, len, attrs⟩
        [.lit "out-", .field "salt", .lit ".csv"] =
      .ok ("out-" ++ (get_salted_version nd).take len ++ ".csv") :=
  salt_target_around_salt ⟨nd, false, sp, len, attrs⟩ "out-" ".csv"

set_option maxRecDepth 20000 in
/-- Claim C7: the hashed self-message lists the significant parameters
sorted by parameter name ascending, each as a `name=value` pair with `value`
rendered by `repr`; the rendering distinguishes the string `"1"` from the
integer `1`, so the two produce different pairs and different digests. -/
theorem c7_sorted_pairs_and_repr :
    (∀ ps : List Param,
      List.Pairwise (fun a b : Param => a.name ≤ b.name) (sortParams ps)) ∧
    (∀ (H : String → String) (reqs : List TaskNode) (src : String)
      (ps : List Param),
      messageH H (.mk reqs src ps) =
        lineageH H reqs ++
          joinComma (src :: ((sortParams ps).filter (·.significant)).map
            (fun p => p.name ++ "=" ++ pyRepr p.value))) ∧
    pairStr ⟨"p", .pyStr "1", true⟩ ≠ pairStr ⟨"p", .pyInt 1, true⟩ ∧
    get_salted_version (.mk [] "S" [⟨"p", .pyStr "1", true⟩]) ≠
      get_salted_version (.mk [] "S" [⟨"p", .pyInt 1, true⟩]) :=
  ⟨pairwise_sortParams,
   fun H reqs src ps => messageH_mk H reqs src ps,
   by decide,
   by decide⟩

/-- Claim C8: for every task node (the inductive node type makes the
reachable requirement graph finite and acyclic), `get_salted_version`
terminates with a 64-character string of lowercase hexadecimal digits — the
hex SHA-256 digest of the UTF-8 encoded combined message. -/
theorem c8_digest_shape (t : TaskNode) :
    (get_salted_version t).length = 64 ∧
      ∀ c ∈ (get_salted_version t).data, c ∈ hexAlphabet :=
  sha256hex_shape (messageH sha256hex t)

/-- Claim C9: a file pattern containing a replacement field other than
`{salt}` that does not resolve against the task's attributes makes
`salt_target` fail with a `TemplateResolutionError` (the uncaught Python
`KeyError`/`AttributeError` from `str.format`), constructing no target. -/
theorem c9_unresolvable_placeholder (st : SaltedTaskNode) (tmpl : List TItem)
    (n : String) (hmem : TItem.field n ∈ tmpl) (hns : n ≠ "salt")
    (ha : st.attrs n = none) :
    ∃ e, salt_target st tmpl = .error e := by
  refine formatTemplate_error _ st.attrs tmpl n hmem ?_
  simp [resolveField, hns, ha]

/-- Witness for `c9_unresolvable_placeholder`: pattern `out-{foo}` against a
task with no resolvable attributes. -/
theorem c9_unresolvable_placeholder_witness :
    (TItem.field "foo" ∈ ([.lit "out-", .field "foo"] : List TItem)) ∧
    "foo" ≠ "salt" ∧
    (SaltedTaskNode.mk (.mk [] "T" []) true false 6 (fun _ => none)).attrs
        "foo" = none ∧
    ∃ e, salt_target (SaltedTaskNode.mk (.mk [] "T" []) true false 6
        (fun _ => none)) [.lit "out-", .field "foo"] = .error e :=
  ⟨by decide, by decide, rfl,
   c9_unresolvable_placeholder _ [.lit "out-", .field "foo"] "foo"
     (by decide) (by decide) rfl⟩

end Salted
